import Mathlib

/-!
Verification development for the LoRA reparametrization core (`src/lora/model.py`).

The code is shallowly embedded over exact rational arithmetic:

* tensors are `Mat := List (List ℚ)` in row-major layout;
* the numerical collaborators consumed from the host tensor library
  (`nn.init.kaiming_uniform_`, `torch.linalg.svd`, `torch.linalg.qr`) are
  modelled by an explicit oracle record `NumOracle`; theorems that depend on
  their output state the corresponding contract (shapes, orthogonality,
  factorization identity) as hypotheses;
* `nn.Dropout` is modelled in its deterministic evaluation semantics (the
  identity map); the persistent dropout mask buffer is the all-ones tensor
  exactly as in the source;
* fallible construction (`raise ValueError`, division by zero in
  `lora_alpha / rank`) is modelled with `Except String`;
* a network is modelled flatly as the list produced by `named_modules()`:
  entries `(path, node)` where `path` is the qualified dotted name split at
  the dots, in depth-first order with the root first ( path `[]`, name `""`).
  The subtree of a submodule is the set of entries whose path it prefixes.
  Only the `"weight"` attribute is modelled, the single attribute any
  registry entry of the source targets.
-/

/-- Row-major rational matrix, the embedding of a 2-D tensor. -/
abbrev Mat : Type := List (List ℚ)

/-- Number of rows and length of the first row, the embedding of `shape`. -/
def matDims (M : Mat) : ℕ × ℕ := (M.length, (M.headD []).length)

/-- Column count of a matrix (length of its first row). -/
def numCols (M : Mat) : ℕ := (M.headD []).length

/-- Every row has the common column count. -/
def isRect (M : Mat) : Bool := M.all (fun row => row.length == numCols M)

/-- Constant matrix of the given shape. -/
def matOfDims (d : ℕ × ℕ) (q : ℚ) : Mat := List.replicate d.1 (List.replicate d.2 q)

/-- Dot product (`zipWith` truncates, matching aligned shapes). -/
def dotProd (u v : List ℚ) : ℚ := (List.zipWith (fun x y => x * y) u v).sum

/-- Transpose; for a rectangular matrix this is the usual transpose. -/
def transposeM (M : Mat) : Mat :=
  (List.range (numCols M)).map (fun j => M.map (fun row => row.getD j 0))

/-- Matrix product, the embedding of `torch.matmul` on 2-D tensors. -/
def matMul (A B : Mat) : Mat :=
  A.map (fun row => (transposeM B).map (fun col => dotProd row col))

/-- Product of a pair, used with `swap` exactly as `torch.matmul(*swap(...))`. -/
def matMulPair (p : Mat × Mat) : Mat := matMul p.1 p.2

/-- Elementwise sum (shapes agree in every use site). -/
def matAdd (A B : Mat) : Mat := List.zipWith (fun r s => List.zipWith (fun x y => x + y) r s) A B

/-- Scalar multiple, the embedding of `tensor * scaling`. -/
def matScale (c : ℚ) (M : Mat) : Mat := M.map (fun row => row.map (fun x => c * x))

/-- Broadcasting elementwise product for the mask shapes the source uses:
a `(1, c)` or `(r, 1)` (or `(1, 1)`) second operand, following the
broadcasting rule of the tensor library. -/
def broadcastMul (A B : Mat) : Mat :=
  if B.length = 1 then
    if numCols B = 1 then A.map (fun row => row.map (fun x => x * (B.headD []).headD 0))
    else A.map (fun row => List.zipWith (fun x y => x * y) row (B.headD []))
  else
    if numCols B = 1 then List.zipWith (fun row brow => row.map (fun x => x * brow.headD 0)) A B
    else List.zipWith (fun row brow => List.zipWith (fun x y => x * y) row brow) A B

/-- Embedding of `Tensor.view(shape)` for 2-D targets: row-major re-chunking
of the flattened entries. For element-count-preserving calls (the only calls
the library accepts) this is exact. -/
def viewAs (d : ℕ × ℕ) (M : Mat) : Mat :=
  (List.range d.1).map (fun i => (List.range d.2).map (fun j => M.flatten.getD (i * d.2 + j) 0))

/-- First `r` columns, the embedding of `m[:, :r]` (truncating like a slice). -/
def takeCols (M : Mat) (r : ℕ) : Mat := M.map (fun row => row.take r)

/-- Columnwise scaling, the embedding of broadcasting `m * s` for an
`(n, r)` tensor and a length-`r` vector. -/
def colScale (M : Mat) (s : List ℚ) : Mat :=
  M.map (fun row => List.zipWith (fun x y => x * y) row s)

/-- Rectangular diagonal matrix built from a list of entries. -/
def diagRect (m n : ℕ) (s : List ℚ) : Mat :=
  (List.range m).map (fun i => (List.range n).map (fun j => if i = j then s.getD i 0 else 0))

/-- Identity matrix. -/
def idMat (n : ℕ) : Mat := diagRect n n (List.replicate n 1)

/-- Embedding of the `swap` closure of `LoRAParametrization.__init__`: swap
the pair when `fan_in_fan_out` is set, otherwise the identity. -/
def swapIf {α : Type} (b : Bool) (p : α × α) : α × α := if b then (p.2, p.1) else p

/-- Oracle for the numerical routines the source consumes from the tensor
library. `kaiming` returns the values `nn.init.kaiming_uniform_` writes into
a tensor of the given shape; `svd` models `torch.linalg.svd`, which returns
`(U, S, Vh)` with `M = U * diag S * Vh` (the third component is the
transposed right-singular-vector matrix); `qr` models `torch.linalg.qr` in
its default reduced mode, returning `(Q, R)` with `M = Q * R` and `Q` having
orthonormal columns. -/
structure NumOracle where
  kaiming : ℕ × ℕ → Mat
  svd : Mat → Mat × List ℚ × Mat
  qr : Mat → Mat × Mat

/-- State of a `LoRAParametrization` module. The stored `swap` closure is
represented by the `fan_in_fan_out` flag, and the stored `forward_fn`
dispatch (reassigned by `disable_lora` / `enable_lora`) by the `enabled`
flag. `lora_A_requires_grad` records the trainability mark of `lora_A`
(`nn.Parameter` defaults it to true; the frozen variant clears it). -/
structure LoRAParam where
  fan_in_fan_out : Bool
  lora_alpha : ℚ
  rank : ℕ
  lora_A : Mat
  lora_B : Mat
  original_weights : Option Mat
  cache_V : Bool
  scaling : ℚ
  lora_dropout_p : ℚ
  lora_dropout_mask : Mat
  V : Option Mat
  enabled : Bool
  lora_A_requires_grad : Bool
deriving DecidableEq

/-- Embedding of `LoRAParametrization._init_AB`: given the zero-initialized
factors `A` and `B`, return the initialized `(A, B, cached V)`. The `svd`
branch follows the source verbatim: `u, s, v = torch.linalg.svd(w)` binds
`v` to the `Vh` component, then `lora_A = (u[:, :rank] * s[:rank]).T` and
`lora_B = v[:, :rank]`. The elementwise product `u[:, :rank] * s[:rank]`
obeys the broadcasting rule of the tensor library for a `(m, k1)` tensor
against a `(k2,)` vector: when `k2 = k1` it scales the columns, when
`k2 = 1` the single value stretches over every entry, when `k1 = 1` the
single column stretches against the vector, and otherwise the library
raises a broadcast size-mismatch `RuntimeError`. An unrecognized method
leaves both factors as they are, as in the source. -/
def initAB (rank : ℕ) (cache_V : Bool) (original_weights : Option Mat) (o : NumOracle)
    (A B : Mat) (init_method : String) : Except String (Mat × Mat × Option Mat) :=
  if init_method = "kaiming" then
    .ok (o.kaiming (matDims A), B, none)
  else if init_method = "svd" then
    match original_weights with
    | none => .error "original_weights must be provided for svd init"
    | some w =>
      let usv := o.svd w
      let uTrunc := takeCols usv.1 rank
      let sTrunc := usv.2.1.take rank
      let B1 := takeCols usv.2.2 rank
      let V1 := if cache_V then some (takeCols usv.2.2 rank) else none
      if sTrunc.length = numCols uTrunc then
        .ok (transposeM (colScale uTrunc sTrunc), B1, V1)
      else if sTrunc.length = 1 then
        .ok (transposeM (uTrunc.map (fun row => row.map (fun x => x * sTrunc.headD 0))), B1, V1)
      else if numCols uTrunc = 1 then
        .ok (transposeM (uTrunc.map (fun row => sTrunc.map (fun y => row.headD 0 * y))), B1, V1)
      else .error "The size of tensor a must match the size of tensor b"
  else .ok (A, B, none)

/-- Embedding of `LoRAParametrization.__init__`, parameterized by the
`_init_AB` implementation so the subclass override is modelled by the same
dynamic dispatch the source uses. The factors start as zero tensors of the
swapped shapes; `scaling = lora_alpha / rank` raises `ZeroDivisionError`
when `rank = 0`, modelled by the second error case (the `_init_AB` call
precedes it, matching the statement order of the source). -/
def initCore (f : Mat → Mat → String → Except String (Mat × Mat × Option Mat))
    (fan_in fan_out : ℕ) (fan_in_fan_out : Bool) (rank : ℕ)
    (lora_dropout_p lora_alpha : ℚ) (init_method : String)
    (original_weights : Option Mat) (cache_V : Bool) : Except String LoRAParam :=
  match f (matOfDims (swapIf fan_in_fan_out (rank, fan_in)) 0)
      (matOfDims (swapIf fan_in_fan_out (fan_out, rank)) 0) init_method with
  | .error e => .error e
  | .ok ABV =>
    if rank = 0 then .error "division by zero"
    else
      .ok { fan_in_fan_out := fan_in_fan_out
            lora_alpha := lora_alpha
            rank := rank
            lora_A := ABV.1
            lora_B := ABV.2.1
            original_weights := original_weights
            cache_V := cache_V
            scaling := lora_alpha / (rank : ℚ)
            lora_dropout_p := lora_dropout_p
            lora_dropout_mask := matOfDims (swapIf fan_in_fan_out (1, fan_in)) 1
            V := ABV.2.2
            enabled := true
            lora_A_requires_grad := true }

/-- Embedding of constructing a `LoRAParametrization`. -/
def LoRAParametrization.init (fan_in fan_out : ℕ) (fan_in_fan_out : Bool) (rank : ℕ)
    (lora_dropout_p lora_alpha : ℚ) (init_method : String)
    (original_weights : Option Mat) (cache_V : Bool) (o : NumOracle) :
    Except String LoRAParam :=
  initCore (initAB rank cache_V original_weights o) fan_in fan_out fan_in_fan_out rank
    lora_dropout_p lora_alpha init_method original_weights cache_V

/-- Embedding of `LoRAFAParametrization._init_AB`: for `kaiming`, fill `A`,
QR-decompose its transpose, replace `A` with `Q.T` and `B` with `B @ R`; for
`svd`, defer to the base implementation; otherwise leave the factors. -/
def initAB_FA (rank : ℕ) (cache_V : Bool) (original_weights : Option Mat) (o : NumOracle)
    (A B : Mat) (init_method : String) : Except String (Mat × Mat × Option Mat) :=
  if init_method = "kaiming" then
    let A1 := o.kaiming (matDims A)
    let qr := o.qr (transposeM A1)
    .ok (transposeM qr.1, matMul B qr.2, none)
  else if init_method = "svd" then initAB rank cache_V original_weights o A B "svd"
  else .ok (A, B, none)

/-- Embedding of constructing a `LoRAFAParametrization`: the base
constructor runs with the overridden `_init_AB`, then `lora_A` is marked
non-trainable via `requires_grad_(False)`. -/
def LoRAFAParametrization.init (fan_in fan_out : ℕ) (fan_in_fan_out : Bool) (rank : ℕ)
    (lora_dropout_p lora_alpha : ℚ) (init_method : String)
    (original_weights : Option Mat) (cache_V : Bool) (o : NumOracle) :
    Except String LoRAParam :=
  match initCore (initAB_FA rank cache_V original_weights o) fan_in fan_out fan_in_fan_out
      rank lora_dropout_p lora_alpha init_method original_weights cache_V with
  | .error e => .error e
  | .ok p => .ok { p with lora_A_requires_grad := false }

/-- Default of the `init_method` keyword of `LoRAParametrization.__init__`. -/
def LoRA_default_init_method : String := "kaiming"

/-- Default of the `init_method` keyword of `LoRAFAParametrization.__init__`. -/
def LoRAFA_default_init_method : String := "svd"

/-- Embedding of `dropout_fn`: when the dropout probability is positive the
source multiplies `A` by `self.lora_dropout(self.lora_dropout_mask)`; the
dropout module in evaluation semantics is the identity, so the factor is
multiplied by the persistent all-ones mask buffer. -/
def LoRAParam.dropout_fn (p : LoRAParam) (A : Mat) : Mat :=
  if 0 < p.lora_dropout_p then broadcastMul A p.lora_dropout_mask else A

/-- Embedding of `LoRAParametrization.lora_forward`. -/
def LoRAParam.lora_forward (p : LoRAParam) (X : Mat) : Mat :=
  matAdd X (matScale p.scaling
    (viewAs (matDims X) (matMulPair (swapIf p.fan_in_fan_out (p.lora_B, p.dropout_fn p.lora_A)))))

/-- Embedding of `forward`: dispatch through the stored `forward_fn`. -/
def LoRAParam.forward (p : LoRAParam) (X : Mat) : Mat :=
  if p.enabled then p.lora_forward X else X

/-- Embedding of `disable_lora`: `forward_fn` becomes the identity. -/
def disable_lora (p : LoRAParam) : LoRAParam := { p with enabled := false }

/-- Embedding of `enable_lora`: `forward_fn` becomes `lora_forward` again. -/
def enable_lora (p : LoRAParam) : LoRAParam := { p with enabled := true }

/-- A network node as seen by the traversal engine: the class name of the
module, the stored `weight` parameter tensor, and the stack of
parametrizations registered on it (in registration order). -/
structure NodeData where
  typeName : String
  weight : Mat
  parametrizations : List LoRAParam
deriving DecidableEq

/-- Flat embedding of a module tree: the list produced by
`named_modules()`, i.e. `(path, node)` entries in depth-first order with the
root first (path `[]`). The qualified dotted name of an entry is
`String.intercalate "." path`. -/
abbrev Network : Type := List (List String × NodeData)

/-- A registry (`lora_config`): class name to factory for the `"weight"`
attribute, the single attribute any registry of the source targets. -/
abbrev LoraConfig : Type := List (String × (NodeData → LoRAParam))

/-- First-match association-list lookup, the embedding of dict indexing. -/
def lookupBy {α : Type} : List (String × α) → String → Option α
  | [], _ => none
  | (k, v) :: rest, s => if k = s then some v else lookupBy rest s

/-- Value obtained by reading the `weight` attribute of a parametrized
module: the registered parametrizations applied in order to the stored
original tensor. -/
def computedWeight (layer : NodeData) : Mat :=
  layer.parametrizations.foldl (fun X p => p.forward X) layer.weight

/-- Embedding of `apply_lora` acting on one submodule. Register path: when
the layer's class is a registry key, build the overlay with the registered
factory (called on the layer, as `parametrization(layer)`) and append it.
Remove path: when no parametrization is present (`hasattr` fails) nothing
happens; otherwise all parametrizations are stripped, the stored tensor
becoming the computed value when `merge` is set and staying the original
otherwise. -/
def apply_lora (register merge : Bool) (cfg : LoraConfig) (layer : NodeData) : NodeData :=
  if register then
    match lookupBy cfg layer.typeName with
    | some factory => { layer with parametrizations := layer.parametrizations ++ [factory layer] }
    | none => layer
  else
    if layer.parametrizations.isEmpty then layer
    else
      { layer with
        weight := (if merge then computedWeight layer else layer.weight)
        parametrizations := [] }

/-- Embedding of `add_lora`: `model.apply` registers on every submodule. -/
def add_lora (cfg : LoraConfig) (net : Network) : Network :=
  net.map (fun e => (e.1, apply_lora true false cfg e.2))

/-- Embedding of `merge_lora`: `apply_lora(register=False, merge=True)` on
every submodule; the registry argument is defaulted and unread on this path,
modelled by the empty registry. -/
def merge_lora (net : Network) : Network :=
  net.map (fun e => (e.1, apply_lora false true [] e.2))

/-- Embedding of `remove_lora`: `apply_lora(register=False, merge=False)` on
every submodule. -/
def remove_lora (net : Network) : Network :=
  net.map (fun e => (e.1, apply_lora false false [] e.2))

/-- Qualified dotted name of a path, as yielded by `named_modules()`. -/
def nameOf (path : List String) : String := String.intercalate "." path

/-- Substring test on character lists (`needle` occurs contiguously). -/
def subChars : List Char → List Char → Bool
  | _, [] => true
  | [], _ :: _ => false
  | a :: as, b :: bs => (a == b && List.isPrefixOf bs as) || subChars as (b :: bs)

/-- Embedding of the Python substring test `frag in s`. -/
def strContains (s frag : String) : Bool := subChars s.toList frag.toList

/-- Does the qualified name contain one of the target fragments
(`any([m in name for m in target_module_names])`). -/
def matchesAny (frags : List String) (name : String) : Bool :=
  frags.any (fun m => strContains name m)

/-- Embedding of `add_lora(layer, ...)` invoked on the submodule at `root`:
`layer.apply` registers on every submodule of that subtree, i.e. on every
entry whose path extends `root`. -/
def add_lora_subtree (cfg : LoraConfig) (root : List String) (net : Network) : Network :=
  net.map (fun e => if root.isPrefixOf e.1 then (e.1, apply_lora true false cfg e.2) else e)

/-- Embedding of `add_lora_by_name`: walk `named_modules()` and apply
`add_lora` to every submodule whose qualified name contains one of the
fragments. The iteration order and the matched names are those of the
original network, whose structure the mutation does not change. -/
def add_lora_by_name (frags : List String) (cfg : LoraConfig) (net : Network) : Network :=
  (net.map Prod.fst).foldl
    (fun acc p => if matchesAny frags (nameOf p) then add_lora_subtree cfg p acc else acc) net

/-- Embedding of `add_lora_by_layer_names`: walk `named_modules()` and, for
every submodule whose qualified name is a key of the supplied map, apply
`add_lora` with that key's registry to its subtree. -/
def add_lora_by_layer_names (namedCfg : List (String × LoraConfig)) (net : Network) : Network :=
  (net.map Prod.fst).foldl
    (fun acc p =>
      match lookupBy namedCfg (nameOf p) with
      | some cfg => add_lora_subtree cfg p acc
      | none => acc) net

/-- Registries applying to the node at `q` during `add_lora_by_layer_names`
over the listed paths: one entry per walked path that is a key of the map
and prefixes `q`, in walk order. -/
def coveringCfgs (namedCfg : List (String × LoraConfig)) (paths : List (List String))
    (q : List String) : List LoraConfig :=
  paths.filterMap (fun p =>
    match lookupBy namedCfg (nameOf p) with
    | some cfg => if p.isPrefixOf q then some cfg else none
    | none => none)

/-- Number of walked paths that match a fragment and prefix `q`: how many
times `add_lora_by_name` registers over the node at `q`. -/
def coveringCount (frags : List String) (paths : List (List String)) (q : List String) : ℕ :=
  (paths.filter (fun p => matchesAny frags (nameOf p) && p.isPrefixOf q)).length

/-- No submodule carries a parametrization. -/
def allClean (net : Network) : Bool :=
  net.all (fun e => e.2.parametrizations.isEmpty)

/-- Node stored at a given path. -/
def findNode (net : Network) (p : List String) : Option NodeData :=
  (net.find? (fun e => e.1 == p)).map (fun e => e.2)

/-- Total projection out of a construction result (used to name the
parametrization a successful construction returns). -/
def getOk (e : Except String LoRAParam) : LoRAParam :=
  match e with
  | .ok p => p
  | .error _ =>
    { fan_in_fan_out := false, lora_alpha := 0, rank := 0, lora_A := [], lora_B := []
      original_weights := none, cache_V := false, scaling := 0, lora_dropout_p := 0
      lora_dropout_mask := [], V := none, enabled := true, lora_A_requires_grad := true }

/-- Embedding of `LoRAParametrization.from_linear`: read the shape of the
layer's (possibly parametrized) `weight` and construct with
`fan_in_fan_out=False`. -/
def from_linear (o : NumOracle) (rank : ℕ) (lora_dropout_p lora_alpha : ℚ)
    (init_method : String) (original_weights : Option Mat) (cache_V : Bool)
    (layer : NodeData) : Except String LoRAParam :=
  let d := matDims (computedWeight layer)
  LoRAParametrization.init d.2 d.1 false rank lora_dropout_p lora_alpha init_method
    original_weights cache_V o

/-- Embedding of `default_lora_config`: only linear layers, attribute
`weight`, rank 4, with the remaining keywords defaulted (`kaiming` init,
which never raises, so the factory is total). -/
def default_lora_config (o : NumOracle) : LoraConfig :=
  [("Linear", fun layer => getOk (from_linear o 4 0 1 "kaiming" none false layer))]

/-- Successful-construction test. -/
def isOkE (e : Except String LoRAParam) : Bool :=
  match e with
  | .ok _ => true
  | .error _ => false

/-- Concrete oracle whose kaiming fill is the all-ones tensor of the
requested shape (the svd and qr components are placeholders, unused by the
statements evaluated with it). -/
def oracleConst : NumOracle :=
  { kaiming := fun d => matOfDims d 1, svd := fun w => (w, [], w), qr := fun m => (m, m) }

/-- Weight used for the svd-layout counterexample: shape `(3, 2)`. -/
def c3W : Mat := [[1, 0], [0, 2], [0, 0]]

/-- Left-singular-vector matrix of `c3W`. -/
def c3U : Mat := [[0, 1, 0], [1, 0, 0], [0, 0, 1]]

/-- Singular values of `c3W`. -/
def c3S : List ℚ := [2, 1]

/-- Transposed right-singular-vector matrix (`Vh`) of `c3W`. -/
def c3Vh : Mat := [[0, 1], [1, 0]]

/-- Oracle returning the exact singular value decomposition of `c3W`. -/
def c3Oracle : NumOracle :=
  { kaiming := fun d => matOfDims d 0, svd := fun _ => (c3U, c3S, c3Vh), qr := fun m => (m, m) }

/-- Weight used for the svd-reconstruction failing input: an invertible
non-symmetric `(2, 2)` matrix (full rank 2). -/
def c4W : Mat := [[0, 2], [1, 0]]

/-- Left-singular-vector matrix of `c4W`. -/
def c4U : Mat := [[1, 0], [0, 1]]

/-- Singular values of `c4W`. -/
def c4S : List ℚ := [2, 1]

/-- Transposed right-singular-vector matrix (`Vh`) of `c4W`. -/
def c4Vh : Mat := [[0, 1], [1, 0]]

/-- Oracle returning the exact singular value decomposition of `c4W`. -/
def c4Oracle : NumOracle :=
  { kaiming := fun d => matOfDims d 0, svd := fun _ => (c4U, c4S, c4Vh), qr := fun m => (m, m) }

/-- Oracle for the frozen-variant witness: the kaiming fill is `[[3, 4]]`
and the qr component returns its exact reduced QR decomposition. -/
def c5Oracle : NumOracle :=
  { kaiming := fun _ => [[3, 4]], svd := fun w => (w, [], w),
    qr := fun _ => ([[3 / 5], [4 / 5]], [[5]]) }

/-- Concrete network for traversal statements: a root container, a
non-linear child `enc` carrying a weight, and a linear grandchild `enc.fc`. -/
def c7Net : Network :=
  [([], { typeName := "Sequential", weight := [], parametrizations := [] }),
   (["enc"], { typeName := "Conv1d", weight := [[1, 2], [3, 4]], parametrizations := [] }),
   (["enc", "fc"], { typeName := "Linear", weight := [[1, 0], [0, 1]], parametrizations := [] })]

/-- Exact-name map used against `c7Net`: only the container `enc` is a key. -/
def c7NamedCfg : List (String × LoraConfig) := [("enc", default_lora_config oracleConst)]

/-- Clean two-node network used for merge/remove round-trip witnesses. -/
def c6Net : Network :=
  [([], { typeName := "Sequential", weight := [], parametrizations := [] }),
   (["fc"], { typeName := "Linear", weight := [[1, 2], [3, 4]], parametrizations := [] })]

/-- Layer with no overlay and a type outside every registry used in
silent-no-op witnesses. -/
def c9Node : NodeData := { typeName := "ReLU", weight := [[5]], parametrizations := [] }

/-- Concrete kaiming construction used by witnesses: `fan_in = 2`,
`fan_out = 3`, `rank = 1`, `lora_alpha = 2`. -/
def c1Init : Except String LoRAParam :=
  LoRAParametrization.init 2 3 false 1 0 2 "kaiming" none false oracleConst

/-- The parametrization constructed by `c1Init`. -/
def c1P : LoRAParam := getOk c1Init

/-- Concrete `(3, 2)` input tensor. -/
def c1X : Mat := [[1, 2], [3, 4], [5, 6]]

/-- Parametrization built by `svd` init from `c3W` at rank 1. -/
def c3P : LoRAParam :=
  getOk (LoRAParametrization.init 2 3 false 1 0 1 "svd" (some c3W) false c3Oracle)

/-- Parametrization built by `svd` init from `c4W` at full rank 2. -/
def c4P : LoRAParam :=
  getOk (LoRAParametrization.init 2 2 false 2 0 1 "svd" (some c4W) false c4Oracle)

/-- Parametrization built by the frozen variant with `kaiming` init from the
`c5Oracle` fill and QR decomposition. -/
def c5P : LoRAParam :=
  getOk (LoRAFAParametrization.init 2 3 false 1 0 1 "kaiming" none false c5Oracle)

/-! Helper lemmas about the matrix layer. -/

theorem zipWith_replicate_right {α β γ : Type} (f : α → β → γ) (A : List α) (b : β) (r : ℕ)
    (h : A.length ≤ r) : List.zipWith f A (List.replicate r b) = A.map (fun a => f a b) := by
  induction A generalizing r with
  | nil => simp
  | cons a as ih =>
    cases r with
    | zero => simp at h
    | succ n =>
      simp only [List.replicate_succ, List.zipWith_cons_cons, List.map_cons]
      exact congrArg _ (ih n (by simpa using h))

theorem getD_replicate_zero (k n : ℕ) : (List.replicate k (0 : ℚ)).getD n 0 = 0 := by
  by_cases h : n < k
  · rw [List.getD_eq_getElem _ _ (by simpa using h)]
    simp
  · rw [List.getD_eq_default _ _ (by simpa using h)]

theorem getD_zero_of_forall (l : List ℚ) (n : ℕ) (h : ∀ x ∈ l, x = 0) : l.getD n 0 = 0 := by
  by_cases hn : n < l.length
  · rw [List.getD_eq_getElem _ _ hn]
    exact h _ (l.getElem_mem hn)
  · rw [List.getD_eq_default _ _ (by omega)]

theorem dotProd_zero_right (v : List ℚ) (k : ℕ) : dotProd v (List.replicate k 0) = 0 := by
  induction v generalizing k with
  | nil => simp [dotProd]
  | cons x xs ih =>
    cases k with
    | zero => simp [dotProd]
    | succ n =>
      simp only [dotProd, List.replicate_succ, List.zipWith_cons_cons, List.sum_cons, mul_zero,
        zero_add]
      exact ih n

theorem dotProd_zero_left (v : List ℚ) (k : ℕ) : dotProd (List.replicate k 0) v = 0 := by
  induction v generalizing k with
  | nil => simp [dotProd]
  | cons x xs ih =>
    cases k with
    | zero => simp [dotProd]
    | succ n =>
      simp only [dotProd, List.replicate_succ, List.zipWith_cons_cons, List.sum_cons, zero_mul,
        zero_add]
      exact ih n

theorem mem_matOfDims_flatten_zero (d : ℕ × ℕ) (x : ℚ) (hx : x ∈ (matOfDims d 0).flatten) :
    x = 0 := by
  rcases List.mem_flatten.1 hx with ⟨row, hrow, hxrow⟩
  rw [matOfDims] at hrow
  rw [List.eq_of_mem_replicate hrow] at hxrow
  exact List.eq_of_mem_replicate hxrow

theorem viewAs_matOfDims_zero (d e : ℕ × ℕ) : viewAs d (matOfDims e 0) = matOfDims d 0 := by
  have h1 : ∀ i : ℕ, (List.range d.2).map
      (fun j => (matOfDims e 0).flatten.getD (i * d.2 + j) 0) = List.replicate d.2 (0 : ℚ) := by
    intro i
    refine List.eq_replicate_iff.2 ⟨by simp, ?_⟩
    intro b hb
    rcases List.mem_map.1 hb with ⟨j, _, rfl⟩
    exact getD_zero_of_forall _ _ (mem_matOfDims_flatten_zero e)
  have h2 : (List.range d.1).map
      (fun i => (List.range d.2).map (fun j => (matOfDims e 0).flatten.getD (i * d.2 + j) 0)) =
      (List.range d.1).map (fun _ => List.replicate d.2 (0 : ℚ)) :=
    List.map_congr_left (fun i _ => h1 i)
  rw [viewAs, h2, List.map_const', List.length_range]
  rfl

theorem matScale_matOfDims_zero (c : ℚ) (d : ℕ × ℕ) :
    matScale c (matOfDims d 0) = matOfDims d 0 := by
  simp [matScale, matOfDims, List.map_replicate]

theorem rows_length_of_rect (M : Mat) (r c : ℕ) (hrect : isRect M = true)
    (hdims : matDims M = (r, c)) : ∀ row ∈ M, row.length = c := by
  intro row hrow
  have := List.all_eq_true.1 hrect row hrow
  have hc : numCols M = c := congrArg Prod.snd hdims
  simpa [hc] using this

theorem matAdd_matOfDims_zero (X : Mat) (r c : ℕ) (hl : X.length = r)
    (hrows : ∀ row ∈ X, row.length ≤ c) : matAdd X (matOfDims (r, c) 0) = X := by
  subst hl
  rw [matAdd, matOfDims, zipWith_replicate_right _ _ _ _ (le_refl _)]
  conv_rhs => rw [← List.map_id X]
  refine List.map_congr_left (fun row hrow => ?_)
  rw [zipWith_replicate_right _ _ _ _ (hrows row hrow)]
  simp

theorem broadcastMul_ones_row (A : Mat) (c : ℕ) (hrows : ∀ row ∈ A, row.length ≤ c) :
    broadcastMul A (matOfDims (1, c) 1) = A := by
  have hB : matOfDims (1, c) (1 : ℚ) = [List.replicate c 1] := by simp [matOfDims]
  rw [hB, broadcastMul, if_pos (show ([List.replicate c (1:ℚ)] : Mat).length = 1 from rfl)]
  by_cases hc : c = 1
  · subst hc
    rw [if_pos (show numCols [List.replicate 1 (1:ℚ)] = 1 from rfl)]
    conv_rhs => rw [← List.map_id A]
    refine List.map_congr_left (fun row hrow => ?_)
    simp
  · rw [if_neg (fun h => hc (by simpa [numCols] using h))]
    conv_rhs => rw [← List.map_id A]
    refine List.map_congr_left (fun row hrow => ?_)
    rw [List.headD_cons, zipWith_replicate_right _ _ _ _ (hrows row hrow)]
    simp

theorem broadcastMul_ones_col (A : Mat) (r : ℕ) (hA : A.length ≤ r) :
    broadcastMul A (matOfDims (r, 1) 1) = A := by
  by_cases hr : r = 1
  · subst hr
    have hB : matOfDims (1, 1) (1 : ℚ) = [[1]] := by simp [matOfDims]
    rw [hB, broadcastMul, if_pos (show ([[1]] : Mat).length = 1 from rfl),
      if_pos (show numCols [[(1 : ℚ)]] = 1 from rfl)]
    conv_rhs => rw [← List.map_id A]
    refine List.map_congr_left (fun row _ => ?_)
    simp
  · have hB : matOfDims (r, 1) (1 : ℚ) = List.replicate r [1] := by simp [matOfDims]
    by_cases hr0 : r = 0
    · subst hr0
      have hA0 : A = [] := List.length_eq_zero.1 (Nat.le_zero.1 hA)
      subst hA0
      simp [broadcastMul, matOfDims]
    · have hnc : numCols (List.replicate r ([1] : List ℚ)) = 1 := by
        cases r with
        | zero => exact absurd rfl hr0
        | succ n => simp [numCols, List.replicate_succ]
      rw [hB, broadcastMul, if_neg (fun h => hr (by simpa using h)), if_pos hnc,
        zipWith_replicate_right _ _ _ _ hA]
      conv_rhs => rw [← List.map_id A]
      refine List.map_congr_left (fun row _ => ?_)
      simp

theorem length_transposeM (M : Mat) : (transposeM M).length = numCols M := by
  simp [transposeM]

theorem matDims_transposeM (M : Mat) (r c : ℕ) (hdims : matDims M = (r, c)) (hr : 0 < r)
    (hc : 0 < c) : matDims (transposeM M) = (c, r) := by
  have hlen : M.length = r := congrArg Prod.fst hdims
  have hcols : numCols M = c := congrArg Prod.snd hdims
  have h1 : (transposeM M).length = c := (length_transposeM M).trans hcols
  cases hcase : numCols M with
  | zero => omega
  | succ n =>
    have : transposeM M = (List.range (n + 1)).map (fun j => M.map (fun row => row.getD j 0)) := by
      rw [transposeM, hcase]
    rw [matDims, this, List.range_succ_eq_map]
    simp [hlen]
    omega

theorem getD_range_eta (row : List ℚ) (c : ℕ) (h : row.length = c) :
    (List.range c).map (fun j => row.getD j 0) = row := by
  refine List.ext_getElem (by simp [h]) ?_
  intro i h1 h2
  simp only [List.getElem_map, List.getElem_range]
  rw [List.getD_eq_getElem]

theorem transposeM_transposeM (M : Mat) (r c : ℕ) (hrect : isRect M = true)
    (hdims : matDims M = (r, c)) (hr : 0 < r) (hc : 0 < c) : transposeM (transposeM M) = M := by
  have hlen : M.length = r := congrArg Prod.fst hdims
  have hcols : numCols M = c := congrArg Prod.snd hdims
  have hdimsT : matDims (transposeM M) = (c, r) := matDims_transposeM M r c hdims hr hc
  have hrows := rows_length_of_rect M r c hrect hdims
  have hcolsT : numCols (transposeM M) = r := congrArg Prod.snd hdimsT
  rw [transposeM, hcolsT]
  refine List.ext_getElem (by simp [hlen]) ?_
  intro i h1 h2
  simp only [List.getElem_map, List.getElem_range]
  have hstep : (transposeM M).map (fun col => col.getD i 0) =
      (List.range c).map (fun j => M[i].getD j 0) := by
    rw [transposeM, hcols, List.map_map]
    refine List.map_congr_left (fun j _ => ?_)
    simp only [Function.comp_apply]
    rw [List.getD_eq_getElem _ _ (by simpa using h2)]
    simp
  rw [hstep, getD_range_eta _ c (hrows _ (List.getElem_mem h2))]

theorem transposeM_matOfDims_zero (r c : ℕ) (hr : 0 < r) :
    transposeM (matOfDims (r, c) 0) = matOfDims (c, r) 0 := by
  have hnc : numCols (matOfDims (r, c) 0) = c := by
    cases r with
    | zero => omega
    | succ n => simp [numCols, matOfDims, List.replicate_succ]
  rw [transposeM, hnc]
  have h1 : ∀ j : ℕ, (matOfDims (r, c) 0).map (fun row => row.getD j 0) =
      List.replicate r (0 : ℚ) := by
    intro j
    rw [matOfDims, List.map_replicate, getD_replicate_zero]
  have h2 : (List.range c).map (fun j => (matOfDims (r, c) 0).map (fun row => row.getD j 0)) =
      (List.range c).map (fun _ => List.replicate r (0 : ℚ)) :=
    List.map_congr_left (fun j _ => h1 j)
  rw [h2, List.map_const', List.length_range]
  rfl

theorem matMul_zeros_left (m k : ℕ) (B : Mat) :
    matMul (matOfDims (m, k) 0) B = matOfDims (m, (transposeM B).length) 0 := by
  rw [matMul, matOfDims, List.map_replicate]
  have h1 : (transposeM B).map (fun col => dotProd (List.replicate k 0) col) =
      (transposeM B).map (fun _ => (0 : ℚ)) :=
    List.map_congr_left (fun col _ => dotProd_zero_left col k)
  rw [h1, List.map_const']
  rfl

theorem matMul_zeros_right (A : Mat) (k n : ℕ) (hk : 0 < k) :
    matMul A (matOfDims (k, n) 0) = matOfDims (A.length, n) 0 := by
  rw [matMul, transposeM_matOfDims_zero k n hk]
  have h1 : ∀ row : List ℚ, (matOfDims (n, k) 0).map (fun col => dotProd row col) =
      List.replicate n (0 : ℚ) := by
    intro row
    rw [matOfDims, List.map_replicate, dotProd_zero_right]
  have h2 : A.map (fun row => (matOfDims (n, k) 0).map (fun col => dotProd row col)) =
      A.map (fun _ => List.replicate n (0 : ℚ)) :=
    List.map_congr_left (fun row _ => h1 row)
  rw [h2, List.map_const']
  rfl

theorem matDims_matOfDims (a b : ℕ) (q : ℚ) (ha : 0 < a) :
    matDims (matOfDims (a, b) q) = (a, b) := by
  cases a with
  | zero => omega
  | succ n => simp [matDims, matOfDims, List.replicate_succ]

theorem initCore_ok (f : Mat → Mat → String → Except String (Mat × Mat × Option Mat))
    (fi fo : ℕ) (ffo : Bool) (rank : ℕ) (pd α : ℚ) (m : String) (ow : Option Mat) (cV : Bool)
    (p : LoRAParam) (h : initCore f fi fo ffo rank pd α m ow cV = .ok p) :
    rank ≠ 0 ∧ ∃ ABV,
      f (matOfDims (swapIf ffo (rank, fi)) 0) (matOfDims (swapIf ffo (fo, rank)) 0) m = .ok ABV ∧
      p = { fan_in_fan_out := ffo, lora_alpha := α, rank := rank, lora_A := ABV.1
            lora_B := ABV.2.1, original_weights := ow, cache_V := cV
            scaling := α / (rank : ℚ), lora_dropout_p := pd
            lora_dropout_mask := matOfDims (swapIf ffo (1, fi)) 1, V := ABV.2.2
            enabled := true, lora_A_requires_grad := true } := by
  unfold initCore at h
  split at h
  · exact absurd h (by simp)
  · rename_i ABV hf
    by_cases hrk : rank = 0
    · rw [if_pos hrk] at h
      exact absurd h (by simp)
    · rw [if_neg hrk] at h
      exact ⟨hrk, ABV, hf, (Except.ok.inj h).symm⟩

theorem faInit_ok (fi fo : ℕ) (ffo : Bool) (rank : ℕ) (pd α : ℚ) (m : String)
    (ow : Option Mat) (cV : Bool) (o : NumOracle) (p : LoRAParam)
    (h : LoRAFAParametrization.init fi fo ffo rank pd α m ow cV o = .ok p) :
    ∃ q, initCore (initAB_FA rank cV ow o) fi fo ffo rank pd α m ow cV = .ok q ∧
      p = { q with lora_A_requires_grad := false } := by
  unfold LoRAFAParametrization.init at h
  split at h
  · exact absurd h (by simp)
  · rename_i q hq
    exact ⟨q, hq, (Except.ok.inj h).symm⟩

theorem swapIf_false {α : Type} (x : α × α) : swapIf false x = x := rfl

theorem swapIf_true {α : Type} (x : α × α) : swapIf true x = (x.2, x.1) := rfl

theorem dropout_fn_eq_self (p : LoRAParam) (fi rank : ℕ)
    (hmask : p.lora_dropout_mask = matOfDims (swapIf p.fan_in_fan_out (1, fi)) 1)
    (hdims : matDims p.lora_A = swapIf p.fan_in_fan_out (rank, fi))
    (hrect : isRect p.lora_A = true) :
    p.dropout_fn p.lora_A = p.lora_A := by
  rw [LoRAParam.dropout_fn]
  by_cases hp : 0 < p.lora_dropout_p
  · rw [if_pos hp, hmask]
    cases hffo : p.fan_in_fan_out with
    | false =>
      rw [hffo, swapIf_false] at hdims
      rw [swapIf_false]
      exact broadcastMul_ones_row _ fi
        (fun row hrow => le_of_eq (rows_length_of_rect _ rank fi hrect hdims row hrow))
    | true =>
      rw [hffo, swapIf_true] at hdims
      have hlen : p.lora_A.length = fi := congrArg Prod.fst hdims
      rw [swapIf_true]
      exact broadcastMul_ones_col _ fi (le_of_eq hlen)
  · rw [if_neg hp]

/-- C1: a constructed `LoRAParametrization` (any init method), applied to an
input, returns `X + (lora_alpha / rank) * (B @ A)` reshaped to `X`'s shape
while enabled (the dropout step is the identity on the well-shaped factor);
`disable_lora` makes `forward` the identity regardless of the factor values,
and a subsequent `enable_lora` restores the corrected behaviour. -/
theorem lora_c1_forward_enable_disable (fi fo : ℕ) (ffo : Bool) (rank : ℕ) (pd α : ℚ)
    (m : String) (ow : Option Mat) (cV : Bool) (o : NumOracle) (p : LoRAParam) (X : Mat)
    (h : LoRAParametrization.init fi fo ffo rank pd α m ow cV o = .ok p)
    (hdims : matDims p.lora_A = swapIf ffo (rank, fi))
    (hrect : isRect p.lora_A = true) :
    (p.forward X = matAdd X (matScale (α / (rank : ℚ))
        (viewAs (matDims X) (matMulPair (swapIf ffo (p.lora_B, p.lora_A)))))) ∧
    (disable_lora p).forward X = X ∧
    (enable_lora (disable_lora p)).forward X = p.forward X ∧
    (∀ (q : LoRAParam) (Y : Mat), (disable_lora q).forward Y = Y ∧
      (enable_lora q).forward Y = q.lora_forward Y) := by
  unfold LoRAParametrization.init at h
  obtain ⟨hrk, ABV, hf, hp⟩ := initCore_ok _ _ _ _ _ _ _ _ _ _ _ h
  have hffo : p.fan_in_fan_out = ffo := by rw [hp]
  have hmask : p.lora_dropout_mask = matOfDims (swapIf p.fan_in_fan_out (1, fi)) 1 := by
    rw [hp]
  have hdrop : p.dropout_fn p.lora_A = p.lora_A := by
    refine dropout_fn_eq_self p fi rank hmask ?_ hrect
    rw [hffo]
    exact hdims
  have hscal : p.scaling = α / (rank : ℚ) := by rw [hp]
  have hen : p.enabled = true := by rw [hp]
  refine ⟨?_, ?_, ?_, ?_⟩
  · rw [LoRAParam.forward, if_pos hen, LoRAParam.lora_forward, hdrop, hscal, hffo]
  · rw [disable_lora, LoRAParam.forward]
    simp
  · rw [enable_lora, disable_lora, LoRAParam.forward, LoRAParam.forward]
    simp only [hen, if_true]
    rw [LoRAParam.lora_forward, LoRAParam.lora_forward]
    rfl
  · intro q Y
    constructor
    · rw [disable_lora, LoRAParam.forward]
      simp
    · rw [enable_lora, LoRAParam.forward]
      simp only [if_true]
      rw [LoRAParam.lora_forward, LoRAParam.lora_forward]
      rfl

theorem matDims_matOfDims_swapIf (b : Bool) (x y : ℕ) (q : ℚ) (hx : 0 < x) (hy : 0 < y) :
    matDims (matOfDims (swapIf b (x, y)) q) = swapIf b (x, y) := by
  cases b
  · rw [swapIf_false]
    exact matDims_matOfDims x y q hx
  · rw [swapIf_true]
    exact matDims_matOfDims y x q hy

theorem matAdd_matDims_zero (X : Mat) (hrect : isRect X = true) :
    matAdd X (matOfDims (matDims X) 0) = X := by
  refine matAdd_matOfDims_zero X X.length (numCols X) rfl (fun row hrow => ?_)
  exact le_of_eq (by simpa using List.all_eq_true.1 hrect row hrow)

/-- C2: constructing with `kaiming` initializes only `A` (with the oracle's
fan-in-aware fill); `B` stays the all-zero tensor, the correction
`B @ A` (after the dropout step) is exactly the zero matrix, and `forward`
is the identity on every parameter-shaped input. -/
theorem lora_c2_kaiming_identity (fi fo : ℕ) (ffo : Bool) (rank : ℕ) (pd α : ℚ)
    (ow : Option Mat) (cV : Bool) (o : NumOracle) (p : LoRAParam)
    (hfi : 0 < fi) (hfo : 0 < fo) (hrk : 0 < rank)
    (hk1 : matDims (o.kaiming (swapIf ffo (rank, fi))) = swapIf ffo (rank, fi))
    (hk2 : isRect (o.kaiming (swapIf ffo (rank, fi))) = true)
    (h : LoRAParametrization.init fi fo ffo rank pd α "kaiming" ow cV o = .ok p) :
    p.lora_A = o.kaiming (swapIf ffo (rank, fi)) ∧
    p.lora_B = matOfDims (swapIf ffo (fo, rank)) 0 ∧
    matMulPair (swapIf ffo (p.lora_B, p.dropout_fn p.lora_A)) =
      matOfDims (swapIf ffo (fo, fi)) 0 ∧
    (∀ X : Mat, matDims X = swapIf ffo (fo, fi) → isRect X = true → p.forward X = X) := by
  unfold LoRAParametrization.init at h
  obtain ⟨hrk0, ABV, hf, hp⟩ := initCore_ok _ _ _ _ _ _ _ _ _ _ _ h
  rw [initAB.eq_def, if_pos rfl,
    matDims_matOfDims_swapIf ffo rank fi 0 hrk hfi] at hf
  have hABV : ABV = (o.kaiming (swapIf ffo (rank, fi)), matOfDims (swapIf ffo (fo, rank)) 0,
      none) := (Except.ok.inj hf).symm
  subst hABV
  have hA : p.lora_A = o.kaiming (swapIf ffo (rank, fi)) := by rw [hp]
  have hB : p.lora_B = matOfDims (swapIf ffo (fo, rank)) 0 := by rw [hp]
  have hmask : p.lora_dropout_mask = matOfDims (swapIf p.fan_in_fan_out (1, fi)) 1 := by
    rw [hp]
  have hffo : p.fan_in_fan_out = ffo := by rw [hp]
  have hdrop : p.dropout_fn p.lora_A = p.lora_A := by
    refine dropout_fn_eq_self p fi rank hmask ?_ (by rw [hA]; exact hk2)
    rw [hffo, hA]
    exact hk1
  have hprod : matMulPair (swapIf ffo (p.lora_B, p.dropout_fn p.lora_A)) =
      matOfDims (swapIf ffo (fo, fi)) 0 := by
    rw [hdrop, hA, hB]
    cases ffo
    · simp only [swapIf_false, matMulPair] at hk1 ⊢
      have hcols : numCols (o.kaiming (rank, fi)) = fi := by
        have h2 := congrArg Prod.snd hk1
        simpa [matDims, numCols] using h2
      rw [matMul_zeros_left fo rank _, length_transposeM, hcols]
    · simp only [swapIf_true, matMulPair] at hk1 ⊢
      have hlen : (o.kaiming (fi, rank)).length = fi := by
        have h2 := congrArg Prod.fst hk1
        simpa [matDims] using h2
      rw [matMul_zeros_right _ rank fo hrk, hlen]
  refine ⟨hA, hB, hprod, ?_⟩
  intro X hX hXrect
  have hen : p.enabled = true := by rw [hp]
  have hscal : p.scaling = α / (rank : ℚ) := by rw [hp]
  rw [LoRAParam.forward, if_pos hen, LoRAParam.lora_forward, hffo, hprod,
    viewAs_matOfDims_zero, matScale_matOfDims_zero]
  exact matAdd_matDims_zero X hXrect

/-- Witness for C1 at the concrete construction `c1Init`. -/
theorem lora_c1_forward_enable_disable_witness :
    (LoRAParametrization.init 2 3 false 1 0 2 "kaiming" none false oracleConst = .ok c1P ∧
      matDims c1P.lora_A = swapIf false (1, 2) ∧ isRect c1P.lora_A = true) ∧
    ((c1P.forward c1X = matAdd c1X (matScale ((2 : ℚ) / ((1 : ℕ) : ℚ))
        (viewAs (matDims c1X) (matMulPair (swapIf false (c1P.lora_B, c1P.lora_A)))))) ∧
      (disable_lora c1P).forward c1X = c1X ∧
      (enable_lora (disable_lora c1P)).forward c1X = c1P.forward c1X ∧
      (∀ (q : LoRAParam) (Y : Mat), (disable_lora q).forward Y = Y ∧
        (enable_lora q).forward Y = q.lora_forward Y)) :=
  ⟨⟨rfl, by decide, by decide⟩,
    lora_c1_forward_enable_disable 2 3 false 1 0 2 "kaiming" none false oracleConst c1P c1X
      rfl (by decide) (by decide)⟩

/-- Witness for C2 at the concrete construction `c1Init`, including the
identity property evaluated at the parameter-shaped input `c1X`. -/
theorem lora_c2_kaiming_identity_witness :
    ((0 : ℕ) < 2 ∧ (0 : ℕ) < 3 ∧ (0 : ℕ) < 1 ∧
      matDims (oracleConst.kaiming (swapIf false (1, 2))) = swapIf false (1, 2) ∧
      isRect (oracleConst.kaiming (swapIf false (1, 2))) = true ∧
      LoRAParametrization.init 2 3 false 1 0 2 "kaiming" none false oracleConst = .ok c1P ∧
      matDims c1X = swapIf false (3, 2) ∧ isRect c1X = true) ∧
    (c1P.lora_A = oracleConst.kaiming (swapIf false (1, 2)) ∧
      c1P.lora_B = matOfDims (swapIf false (3, 1)) 0 ∧
      matMulPair (swapIf false (c1P.lora_B, c1P.dropout_fn c1P.lora_A)) =
        matOfDims (swapIf false (3, 2)) 0 ∧
      c1P.forward c1X = c1X) := by
  have H := lora_c2_kaiming_identity 2 3 false 1 0 2 none false oracleConst c1P
    (by decide) (by decide) (by decide) (by decide) (by decide) rfl
  exact ⟨⟨by decide, by decide, by decide, by decide, by decide, rfl, by decide, by decide⟩,
    H.1, H.2.1, H.2.2.1, H.2.2.2 c1X (by decide) (by decide)⟩

theorem initAB_svd_none (rank : ℕ) (cV : Bool) (o : NumOracle) (A B : Mat) :
    initAB rank cV none o A B "svd" = .error "original_weights must be provided for svd init" := by
  unfold initAB
  rw [if_neg (by decide), if_pos rfl]

theorem initAB_FA_svd_none (rank : ℕ) (cV : Bool) (o : NumOracle) (A B : Mat) :
    initAB_FA rank cV none o A B "svd" =
      .error "original_weights must be provided for svd init" := by
  unfold initAB_FA
  rw [if_neg (by decide), if_pos rfl]
  exact initAB_svd_none rank cV o A B

theorem initCore_error (f : Mat → Mat → String → Except String (Mat × Mat × Option Mat))
    (fi fo : ℕ) (ffo : Bool) (rank : ℕ) (pd α : ℚ) (m : String) (ow : Option Mat) (cV : Bool)
    (e : String)
    (hf : f (matOfDims (swapIf ffo (rank, fi)) 0) (matOfDims (swapIf ffo (fo, rank)) 0) m =
      .error e) :
    initCore f fi fo ffo rank pd α m ow cV = .error e := by
  unfold initCore
  rw [hf]

theorem numCols_takeCols (M : Mat) (r : ℕ) : numCols (takeCols M r) = min r (numCols M) := by
  cases M with
  | nil => simp [numCols, takeCols]
  | cons row rest => simp [numCols, takeCols, List.length_take]

theorem faInit_svd_none (fi fo : ℕ) (ffo : Bool) (rank : ℕ) (pd α : ℚ) (cV : Bool)
    (o : NumOracle) :
    LoRAFAParametrization.init fi fo ffo rank pd α "svd" none cV o =
      .error "original_weights must be provided for svd init" := by
  unfold LoRAFAParametrization.init
  rw [initCore_error _ _ _ _ _ _ _ _ _ _ _ (initAB_FA_svd_none rank cV o _ _)]

/-- C10: the frozen variant defaults `init_method` to `"svd"` (unlike the
base class, which defaults to `"kaiming"`), so constructing it with the
defaulted method and no `original_weights` always raises the configuration
`ValueError`, whatever the remaining arguments. -/
theorem lora_c10_fa_default_svd :
    LoRA_default_init_method = "kaiming" ∧ LoRAFA_default_init_method = "svd" ∧
    (∀ (fi fo : ℕ) (ffo : Bool) (rank : ℕ) (pd α : ℚ) (cV : Bool) (o : NumOracle),
      LoRAFAParametrization.init fi fo ffo rank pd α LoRAFA_default_init_method none cV o =
        .error "original_weights must be provided for svd init") :=
  ⟨rfl, rfl, fun fi fo ffo rank pd α cV o => faInit_svd_none fi fo ffo rank pd α cV o⟩

/-- C9: the remove/merge path of `apply_lora` on a layer carrying no active
parametrization is a silent no-op returning the layer unchanged, and the
register path on a layer whose type has no registry entry is likewise a
silent no-op. -/
theorem lora_c9_silent_noops (cfg : LoraConfig) (layer : NodeData) (merge : Bool) :
    (layer.parametrizations = [] → apply_lora false merge cfg layer = layer) ∧
    (lookupBy cfg layer.typeName = none → apply_lora true merge cfg layer = layer) := by
  constructor
  · intro h
    unfold apply_lora
    rw [if_neg (by simp), if_pos (by simp [h])]
  · intro h
    unfold apply_lora
    rw [if_pos rfl, h]

/-- Witness for C9: a parametrization-free `ReLU` layer against the empty
registry, exercising both silent no-ops. -/
theorem lora_c9_silent_noops_witness :
    (c9Node.parametrizations = [] ∧ apply_lora false true [] c9Node = c9Node) ∧
    (lookupBy ([] : LoraConfig) c9Node.typeName = none ∧
      apply_lora true true [] c9Node = c9Node) :=
  ⟨⟨by decide, (lora_c9_silent_noops [] c9Node true).1 (by decide)⟩,
   ⟨rfl, (lora_c9_silent_noops [] c9Node true).2 rfl⟩⟩

theorem apply_lora_merge_eq (cfg : LoraConfig) (d : NodeData) :
    apply_lora false true cfg d =
      { typeName := d.typeName, weight := computedWeight d, parametrizations := [] } := by
  unfold apply_lora
  by_cases he : d.parametrizations.isEmpty
  · rw [if_neg (by simp), if_pos he]
    cases d with
    | mk t w ps =>
      obtain rfl : ps = [] := by simpa using he
      simp [computedWeight]
  · rw [if_neg (by simp), if_neg he]
    simp

theorem apply_lora_remove_eq (cfg : LoraConfig) (d : NodeData) :
    apply_lora false false cfg d = { d with parametrizations := [] } := by
  unfold apply_lora
  by_cases he : d.parametrizations.isEmpty
  · rw [if_neg (by simp), if_pos he]
    cases d with
    | mk t w ps =>
      obtain rfl : ps = [] := by simpa using he
      rfl
  · rw [if_neg (by simp), if_neg he]
    simp

theorem apply_lora_roundtrip (cfg : LoraConfig) (d : NodeData)
    (h : d.parametrizations = []) :
    apply_lora false false [] (apply_lora true false cfg d) = d := by
  rw [apply_lora_remove_eq]
  unfold apply_lora
  rw [if_pos rfl]
  cases hcfg : lookupBy cfg d.typeName with
  | none =>
    cases d with
    | mk t w ps =>
      obtain rfl : ps = [] := h
      rfl
  | some f =>
    cases d with
    | mk t w ps =>
      obtain rfl : ps = [] := h
      rfl

/-- C6: `merge_lora` writes the pre-merge corrected (computed) value of
every submodule into the stored parameter and strips every parametrization,
so the parameter read after merging equals the pre-merge corrected value
exactly; `remove_lora` strips every parametrization keeping the stored
original, and removing right after attaching restores a clean network to
exactly its pre-attach state, discarding the learned factors. -/
theorem lora_c6_merge_remove (net : Network) (cfg : LoraConfig) :
    merge_lora net = net.map (fun e => (e.1,
      { typeName := e.2.typeName, weight := computedWeight e.2, parametrizations := [] })) ∧
    (∀ d : NodeData, computedWeight (apply_lora false true [] d) = computedWeight d ∧
      (apply_lora false true [] d).parametrizations = []) ∧
    remove_lora net = net.map (fun e => (e.1, { e.2 with parametrizations := [] })) ∧
    (allClean net = true → remove_lora (add_lora cfg net) = net) := by
  refine ⟨?_, ?_, ?_, ?_⟩
  · rw [merge_lora]
    exact List.map_congr_left (fun e _ => congrArg (Prod.mk e.1) (apply_lora_merge_eq [] e.2))
  · intro d
    rw [apply_lora_merge_eq]
    exact ⟨rfl, rfl⟩
  · rw [remove_lora]
    exact List.map_congr_left (fun e _ => congrArg (Prod.mk e.1) (apply_lora_remove_eq [] e.2))
  · intro hclean
    rw [add_lora, remove_lora, List.map_map]
    have h1 : ∀ e ∈ net, ((fun e : List String × NodeData =>
          (e.1, apply_lora false false [] e.2)) ∘
          (fun e : List String × NodeData => (e.1, apply_lora true false cfg e.2))) e = e := by
      intro e he
      have hps : e.2.parametrizations = [] := by
        simpa using List.all_eq_true.1 hclean e he
      simp only [Function.comp_apply]
      rw [apply_lora_roundtrip cfg e.2 hps]
    rw [List.map_congr_left h1]
    exact List.map_id _

/-- Witness for C6 on the concrete clean network `c6Net` with the default
registry. -/
theorem lora_c6_merge_remove_witness :
    (allClean c6Net = true) ∧
    remove_lora (add_lora (default_lora_config oracleConst) c6Net) = c6Net :=
  ⟨by decide,
    (lora_c6_merge_remove c6Net (default_lora_config oracleConst)).2.2.2 (by decide)⟩

theorem matDims_of_rows (M : Mat) (r c : ℕ) (hlen : M.length = r)
    (hrows : ∀ row ∈ M, row.length = c) (hr : 0 < r) :
    matDims M = (r, c) ∧ isRect M = true := by
  cases M with
  | nil => simp at hlen; omega
  | cons row rest =>
    have hhead : row.length = c := hrows row (by simp)
    have h1 : matDims (row :: rest) = (r, c) := by
      rw [matDims]
      simp [hlen, hhead]
    refine ⟨h1, ?_⟩
    rw [isRect]
    refine List.all_eq_true.2 (fun row2 hrow2 => ?_)
    have h2 := hrows row2 hrow2
    simp [numCols, hhead, h2]

/-- C3 (amended): after `svd` construction from a weight of shape
`(fan_out, fan_in)`, `lora_A` equals the first `rank` left-singular vectors
scaled columnwise by their singular values and transposed — landing in
`(rank, fan_out)` layout, not the claimed `(rank, fan_in)` — and `lora_B`
equals the first `rank` columns of the `Vh` factor returned by
`torch.linalg.svd` (the transposed right-singular-vector matrix), landing in
`(fan_in, rank)` layout, not the claimed `(fan_out, rank)`. -/
theorem lora_c3_svd_factors (fi fo : ℕ) (ffo : Bool) (rank : ℕ) (pd α : ℚ) (cV : Bool)
    (o : NumOracle) (w u : Mat) (s : List ℚ) (vh : Mat) (p : LoRAParam)
    (hsvd : o.svd w = (u, s, vh))
    (hu : matDims u = (fo, fo)) (hurect : isRect u = true)
    (hvh : matDims vh = (fi, fi)) (hvhrect : isRect vh = true)
    (hs : s.length = min fo fi)
    (hrka : rank ≤ fo) (hrkb : rank ≤ fi) (hrk : 0 < rank)
    (h : LoRAParametrization.init fi fo ffo rank pd α "svd" (some w) cV o = .ok p) :
    p.lora_A = transposeM (colScale (takeCols u rank) (s.take rank)) ∧
    p.lora_B = takeCols vh rank ∧
    matDims p.lora_A = (rank, fo) ∧
    matDims p.lora_B = (fi, rank) := by
  unfold LoRAParametrization.init at h
  obtain ⟨hrk0, ABV, hf, hp⟩ := initCore_ok _ _ _ _ _ _ _ _ _ _ _ h
  rw [initAB.eq_def, if_neg (by decide), if_pos rfl] at hf
  simp only [hsvd] at hf
  have hnc_u : numCols u = fo := congrArg Prod.snd hu
  have hcond : (s.take rank).length = numCols (takeCols u rank) := by
    rw [List.length_take, hs, numCols_takeCols, hnc_u]
    omega
  rw [if_pos hcond] at hf
  have hABV : ABV = (transposeM (colScale (takeCols u rank) (s.take rank)), takeCols vh rank,
      if cV then some (takeCols vh rank) else none) := (Except.ok.inj hf).symm
  subst hABV
  have hA : p.lora_A = transposeM (colScale (takeCols u rank) (s.take rank)) := by rw [hp]
  have hB : p.lora_B = takeCols vh rank := by rw [hp]
  have hfo0 : 0 < fo := lt_of_lt_of_le hrk hrka
  have hfi0 : 0 < fi := lt_of_lt_of_le hrk hrkb
  have hulen : u.length = fo := congrArg Prod.fst hu
  have hvhlen : vh.length = fi := congrArg Prod.fst hvh
  have hrowsM1 : ∀ row ∈ colScale (takeCols u rank) (s.take rank), row.length = rank := by
    intro row hrow
    rw [colScale] at hrow
    rcases List.mem_map.1 hrow with ⟨urow, hurow, rfl⟩
    rw [takeCols] at hurow
    rcases List.mem_map.1 hurow with ⟨urow0, hurow0, rfl⟩
    have hu0 : urow0.length = fo := rows_length_of_rect u fo fo hurect hu urow0 hurow0
    simp only [List.length_zipWith, List.length_take, hu0, hs]
    omega
  have hM1len : (colScale (takeCols u rank) (s.take rank)).length = fo := by
    simp [colScale, takeCols, hulen]
  obtain ⟨hdM1, _⟩ := matDims_of_rows _ fo rank hM1len hrowsM1 hfo0
  have hrowsB : ∀ row ∈ takeCols vh rank, row.length = rank := by
    intro row hrow
    rw [takeCols] at hrow
    rcases List.mem_map.1 hrow with ⟨vrow, hvrow, rfl⟩
    have hv0 : vrow.length = fi := rows_length_of_rect vh fi fi hvhrect hvh vrow hvrow
    simp only [List.length_take, hv0]
    omega
  have hBlen : (takeCols vh rank).length = fi := by simp [takeCols, hvhlen]
  obtain ⟨hdB, _⟩ := matDims_of_rows _ fi rank hBlen hrowsB hfi0
  refine ⟨hA, hB, ?_, ?_⟩
  · rw [hA]
    exact matDims_transposeM _ fo rank hdM1 hfo0 hrk
  · rw [hB]
    exact hdB

theorem svd_ne_kaiming_iff : (("svd" : String) = "kaiming") ↔ False :=
  iff_false_intro (by decide)

/-- Counterexample to C3 as stated: `c3W` has shape `(fan_out, fan_in) =
(3, 2)` and `(c3U, c3S, c3Vh)` is its exact singular value decomposition
(product identity and orthogonality checked below); yet at `rank = 1` the
constructed `lora_A` has shape `(1, 3)`, not the claimed `(rank, fan_in) =
(1, 2)`, and `lora_B` has shape `(2, 1)`, not the claimed `(fan_out, rank) =
(3, 1)` — so `lora_B` cannot be the first `rank` right singular vectors in
`(fan_out, rank)` layout. -/
theorem lora_c3_svd_factors_counterexample :
    matMul (matMul c3U (diagRect 3 2 c3S)) c3Vh = c3W ∧
    matMul (transposeM c3U) c3U = idMat 3 ∧
    matMul (transposeM c3Vh) c3Vh = idMat 2 ∧
    c3Oracle.svd c3W = (c3U, c3S, c3Vh) ∧
    isOkE (LoRAParametrization.init 2 3 false 1 0 1 "svd" (some c3W) false c3Oracle) = true ∧
    matDims c3P.lora_A = (1, 3) ∧ ((1, 3) : ℕ × ℕ) ≠ (1, 2) ∧
    matDims c3P.lora_B = (2, 1) ∧ ((2, 1) : ℕ × ℕ) ≠ (3, 1) := by
  norm_num [matMul, transposeM, dotProd, numCols, List.range_succ, diagRect, idMat,
    c3U, c3S, c3Vh, c3W, c3Oracle, c3P, isOkE, LoRAParametrization.init, initCore, initAB,
    getOk, takeCols, colScale, matOfDims, swapIf, matDims, svd_ne_kaiming_iff]

/-- Witness for the amended C3 at the concrete decomposition of `c3W`. -/
theorem lora_c3_svd_factors_witness :
    (c3Oracle.svd c3W = (c3U, c3S, c3Vh) ∧
      matDims c3U = (3, 3) ∧ isRect c3U = true ∧
      matDims c3Vh = (2, 2) ∧ isRect c3Vh = true ∧
      c3S.length = min 3 2 ∧ (1 : ℕ) ≤ 3 ∧ (1 : ℕ) ≤ 2 ∧ (0 : ℕ) < 1 ∧
      LoRAParametrization.init 2 3 false 1 0 1 "svd" (some c3W) false c3Oracle = .ok c3P) ∧
    (c3P.lora_A = transposeM (colScale (takeCols c3U 1) (c3S.take 1)) ∧
      c3P.lora_B = takeCols c3Vh 1 ∧
      matDims c3P.lora_A = (1, 3) ∧
      matDims c3P.lora_B = (2, 1)) :=
  ⟨⟨rfl, by decide, by decide, by decide, by decide, by decide, by decide, by decide, by decide,
      rfl⟩,
    lora_c3_svd_factors 2 3 false 1 0 1 false c3Oracle c3W c3U c3S c3Vh c3P rfl
      (by decide) (by decide) (by decide) (by decide) (by decide) (by decide) (by decide)
      (by decide) rfl⟩

/-- C4: evaluation of the code at the failing input. `c4W` is invertible
(full rank 2) and non-symmetric, and `(c4U, c4S, c4Vh)` is its exact
singular value decomposition; yet the `svd`-initialized factors at rank 2
satisfy `B @ A = transposeM c4W ≠ c4W`: the initialization reconstructs the
transpose of the weight, because `torch.linalg.svd` returns `Vh` while the
code uses its columns as if they were the right singular vectors. -/
theorem lora_c4_svd_reconstruction_failure :
    matMul (matMul c4U (diagRect 2 2 c4S)) c4Vh = c4W ∧
    matMul (transposeM c4U) c4U = idMat 2 ∧
    matMul (transposeM c4Vh) c4Vh = idMat 2 ∧
    c4Oracle.svd c4W = (c4U, c4S, c4Vh) ∧
    isOkE (LoRAParametrization.init 2 2 false 2 0 1 "svd" (some c4W) false c4Oracle) = true ∧
    matMul c4P.lora_B c4P.lora_A = transposeM c4W ∧
    matMul c4P.lora_B c4P.lora_A ≠ c4W := by
  norm_num [matMul, transposeM, dotProd, numCols, List.range_succ, diagRect, idMat,
    c4U, c4S, c4Vh, c4W, c4Oracle, c4P, isOkE, LoRAParametrization.init, initCore, initAB,
    getOk, takeCols, colScale, matOfDims, swapIf, matDims, svd_ne_kaiming_iff]

/-- C5: for the frozen-A variant with `kaiming` init (standard layout),
factor A becomes `Q.T` from the QR reprojection of the kaiming fill, so its
rows are pairwise orthonormal (`A * A.T` is the identity); factor B is
replaced by `B @ R`, which is still the zero tensor since the
pre-reprojection B was zero, so `B @ A` is exactly the zero matrix at
initialization; and for every init method the constructor marks `lora_A`
non-trainable and the module's own operations never change `lora_A`. -/
theorem lorafa_c5_kaiming_orthonormal_frozen (fi fo rank : ℕ) (pd α : ℚ) (cV : Bool)
    (o : NumOracle) (q r : Mat) (p : LoRAParam)
    (hrk : 0 < rank) (hfi : 0 < fi) (hfo : 0 < fo)
    (hqr : o.qr (transposeM (o.kaiming (rank, fi))) = (q, r))
    (hq : matDims q = (fi, rank)) (hqrect : isRect q = true)
    (horth : matMul (transposeM q) q = idMat rank)
    (hr : matDims r = (rank, rank))
    (hfact : matMul q r = transposeM (o.kaiming (rank, fi)))
    (h : LoRAFAParametrization.init fi fo false rank pd α "kaiming" none cV o = .ok p) :
    (p.lora_A = transposeM q ∧
     matMul p.lora_A (transposeM p.lora_A) = idMat rank ∧
     matMul p.lora_B p.lora_A = matOfDims (fo, fi) 0 ∧
     p.lora_A_requires_grad = false) ∧
    (∀ (m2 : String) (ow2 : Option Mat) (cV2 : Bool) (p2 : LoRAParam),
      LoRAFAParametrization.init fi fo false rank pd α m2 ow2 cV2 o = .ok p2 →
      p2.lora_A_requires_grad = false ∧ (enable_lora p2).lora_A = p2.lora_A ∧
      (disable_lora p2).lora_A = p2.lora_A) := by
  obtain ⟨q0, hq0, hp⟩ := faInit_ok _ _ _ _ _ _ _ _ _ _ _ h
  obtain ⟨hrk0, ABV, hf, hq0eq⟩ := initCore_ok _ _ _ _ _ _ _ _ _ _ _ hq0
  rw [initAB_FA.eq_def, if_pos rfl] at hf
  simp only [swapIf_false, matDims_matOfDims rank fi 0 hrk, hqr] at hf
  have hABV : ABV = (transposeM q, matMul (matOfDims (fo, rank) 0) r, none) :=
    (Except.ok.inj hf).symm
  subst hABV
  have hA : p.lora_A = transposeM q := by rw [hp, hq0eq]
  have hrg : p.lora_A_requires_grad = false := by rw [hp]
  have hB : p.lora_B = matOfDims (fo, rank) 0 := by
    rw [hp, hq0eq]
    show matMul (matOfDims (fo, rank) 0) r = matOfDims (fo, rank) 0
    rw [matMul_zeros_left fo rank r, length_transposeM]
    have hnc : numCols r = rank := congrArg Prod.snd hr
    rw [hnc]
  have hdimsTq : matDims (transposeM q) = (rank, fi) := matDims_transposeM q fi rank hq hfi hrk
  refine ⟨⟨hA, ?_, ?_, hrg⟩, ?_⟩
  · rw [hA, transposeM_transposeM q fi rank hqrect hq hfi hrk]
    exact horth
  · rw [hA, hB, matMul_zeros_left fo rank (transposeM q), length_transposeM]
    have hnc : numCols (transposeM q) = fi := congrArg Prod.snd hdimsTq
    rw [hnc]
  · intro m2 ow2 cV2 p2 h2
    obtain ⟨q2, hq2, hp2⟩ := faInit_ok _ _ _ _ _ _ _ _ _ _ _ h2
    exact ⟨by rw [hp2], rfl, rfl⟩

/-- Witness for C5 at a concrete construction: the kaiming fill is
`[[3, 4]]` and its transpose has the exact rational QR decomposition
`Q = [[3/5], [4/5]]`, `R = [[5]]`. -/
theorem lorafa_c5_kaiming_orthonormal_frozen_witness :
    ((0 : ℕ) < 1 ∧ (0 : ℕ) < 2 ∧ (0 : ℕ) < 3 ∧
      c5Oracle.qr (transposeM (c5Oracle.kaiming (1, 2))) = ([[3 / 5], [4 / 5]], [[5]]) ∧
      matDims ([[3 / 5], [4 / 5]] : Mat) = (2, 1) ∧
      isRect ([[3 / 5], [4 / 5]] : Mat) = true ∧
      matMul (transposeM [[3 / 5], [4 / 5]]) [[3 / 5], [4 / 5]] = idMat 1 ∧
      matDims ([[(5 : ℚ)]] : Mat) = (1, 1) ∧
      matMul [[3 / 5], [4 / 5]] [[(5 : ℚ)]] = transposeM (c5Oracle.kaiming (1, 2)) ∧
      LoRAFAParametrization.init 2 3 false 1 0 1 "kaiming" none false c5Oracle = .ok c5P) ∧
    ((c5P.lora_A = transposeM [[3 / 5], [4 / 5]] ∧
      matMul c5P.lora_A (transposeM c5P.lora_A) = idMat 1 ∧
      matMul c5P.lora_B c5P.lora_A = matOfDims (3, 2) 0 ∧
      c5P.lora_A_requires_grad = false) ∧
     (c5P.lora_A_requires_grad = false ∧ (enable_lora c5P).lora_A = c5P.lora_A ∧
      (disable_lora c5P).lora_A = c5P.lora_A)) := by
  have horth : matMul (transposeM [[3 / 5], [4 / 5]]) [[3 / 5], [4 / 5]] = idMat 1 := by
    norm_num [matMul, transposeM, dotProd, numCols, idMat, diagRect, List.range_succ]
  have hfact : matMul [[3 / 5], [4 / 5]] [[(5 : ℚ)]] = transposeM (c5Oracle.kaiming (1, 2)) := by
    norm_num [matMul, transposeM, dotProd, numCols, c5Oracle, List.range_succ]
  have H := lorafa_c5_kaiming_orthonormal_frozen 2 3 1 0 1 false c5Oracle
    [[3 / 5], [4 / 5]] [[5]] c5P (by decide) (by decide) (by decide) rfl (by decide)
    (by decide) horth (by decide) hfact rfl
  exact ⟨⟨by decide, by decide, by decide, rfl, by decide, by decide, horth, by decide,
    hfact, rfl⟩, H.1, H.2 "kaiming" none false c5P rfl⟩

theorem apply_lora_register_frame (cfg : LoraConfig) (d : NodeData) :
    (apply_lora true false cfg d).weight = d.weight ∧
    (apply_lora true false cfg d).typeName = d.typeName := by
  unfold apply_lora
  rw [if_pos rfl]
  cases lookupBy cfg d.typeName <;> simp

theorem apply_lora_iterate_frame (cfg : LoraConfig) (d : NodeData) (n : ℕ) :
    ((fun d2 => apply_lora true false cfg d2)^[n] d).weight = d.weight ∧
    ((fun d2 => apply_lora true false cfg d2)^[n] d).typeName = d.typeName := by
  induction n generalizing d with
  | zero => exact ⟨rfl, rfl⟩
  | succ k ih =>
    rw [Function.iterate_succ_apply]
    obtain ⟨h1, h2⟩ := ih (apply_lora true false cfg d)
    obtain ⟨h3, h4⟩ := apply_lora_register_frame cfg d
    exact ⟨h1.trans h3, h2.trans h4⟩

theorem apply_lora_register_skip (cfg : LoraConfig) (d : NodeData)
    (h : lookupBy cfg d.typeName = none) : apply_lora true false cfg d = d := by
  unfold apply_lora
  rw [if_pos rfl, h]

theorem apply_lora_register_append (cfg : LoraConfig) (d : NodeData)
    (f : NodeData → LoRAParam) (hf : lookupBy cfg d.typeName = some f) :
    (apply_lora true false cfg d).parametrizations = d.parametrizations ++ [f d] ∧
    (apply_lora true false cfg d).weight = d.weight := by
  unfold apply_lora
  rw [if_pos rfl, hf]
  exact ⟨rfl, rfl⟩

theorem addByLayerNamesFold (namedCfg : List (String × LoraConfig)) (ps : List (List String))
    (acc : Network) :
    ps.foldl (fun acc2 p =>
        match lookupBy namedCfg (nameOf p) with
        | some cfg => add_lora_subtree cfg p acc2
        | none => acc2) acc =
      acc.map (fun e => (e.1, (coveringCfgs namedCfg ps e.1).foldl
        (fun d c => apply_lora true false c d) e.2)) := by
  induction ps generalizing acc with
  | nil =>
    rw [List.foldl_nil]
    have h1 : ∀ e ∈ acc, ((e.1, (coveringCfgs namedCfg [] e.1).foldl
        (fun d c => apply_lora true false c d) e.2) : List String × NodeData) = e := by
      intro e he
      simp [coveringCfgs]
    rw [List.map_congr_left h1, List.map_id']
  | cons p ps ih =>
    cases hlk : lookupBy namedCfg (nameOf p) with
    | none =>
      simp only [List.foldl_cons, hlk]
      rw [ih acc]
      refine List.map_congr_left (fun e he => ?_)
      have hcov : coveringCfgs namedCfg (p :: ps) e.1 = coveringCfgs namedCfg ps e.1 := by
        rw [coveringCfgs, coveringCfgs, List.filterMap_cons]
        simp only [hlk]
      rw [hcov]
    | some cfg =>
      simp only [List.foldl_cons, hlk]
      rw [ih (add_lora_subtree cfg p acc), add_lora_subtree, List.map_map]
      refine List.map_congr_left (fun e he => ?_)
      simp only [Function.comp_apply]
      by_cases hpre : p.isPrefixOf e.1 = true
      · rw [if_pos hpre]
        have hcov : coveringCfgs namedCfg (p :: ps) e.1 = cfg :: coveringCfgs namedCfg ps e.1 := by
          rw [coveringCfgs, coveringCfgs, List.filterMap_cons]
          simp only [hlk, if_pos hpre]
        rw [hcov, List.foldl_cons]
      · rw [if_neg hpre]
        have hcov : coveringCfgs namedCfg (p :: ps) e.1 = coveringCfgs namedCfg ps e.1 := by
          rw [coveringCfgs, coveringCfgs, List.filterMap_cons]
          simp only [hlk, if_neg hpre]
        rw [hcov]

theorem addByNameFold (frags : List String) (cfg : LoraConfig) (ps : List (List String))
    (acc : Network) :
    ps.foldl (fun acc2 p =>
        if matchesAny frags (nameOf p) then add_lora_subtree cfg p acc2 else acc2) acc =
      acc.map (fun e => (e.1,
        (fun d => apply_lora true false cfg d)^[coveringCount frags ps e.1] e.2)) := by
  induction ps generalizing acc with
  | nil =>
    rw [List.foldl_nil]
    have h1 : ∀ e ∈ acc, ((e.1,
        (fun d => apply_lora true false cfg d)^[coveringCount frags [] e.1] e.2) :
        List String × NodeData) = e := by
      intro e he
      simp [coveringCount]
    rw [List.map_congr_left h1, List.map_id']
  | cons p ps ih =>
    by_cases hm : matchesAny frags (nameOf p) = true
    · simp only [List.foldl_cons, if_pos hm]
      rw [ih (add_lora_subtree cfg p acc), add_lora_subtree, List.map_map]
      refine List.map_congr_left (fun e he => ?_)
      simp only [Function.comp_apply]
      by_cases hpre : p.isPrefixOf e.1 = true
      · rw [if_pos hpre]
        have hcnt : coveringCount frags (p :: ps) e.1 = coveringCount frags ps e.1 + 1 := by
          rw [coveringCount, coveringCount, List.filter_cons]
          simp [hm, hpre]
        rw [hcnt, Function.iterate_succ_apply]
      · rw [if_neg hpre]
        have hcnt : coveringCount frags (p :: ps) e.1 = coveringCount frags ps e.1 := by
          rw [coveringCount, coveringCount, List.filter_cons]
          simp [hm, hpre]
        rw [hcnt]
    · simp only [List.foldl_cons, if_neg hm]
      rw [ih acc]
      refine List.map_congr_left (fun e he => ?_)
      have hcnt : coveringCount frags (p :: ps) e.1 = coveringCount frags ps e.1 := by
        rw [coveringCount, coveringCount, List.filter_cons]
        simp [hm]
      rw [hcnt]

/-- C7 (amended): `add_lora_by_layer_names` applies, to every submodule,
the registries of exactly those walked modules whose qualified name is a
key of the map and whose path prefixes that submodule (so keys attach
throughout their subtree, to layers of registered type); `add_lora_by_name`
registers over a submodule once per fragment-matching module whose path
prefixes it. In both cases a registration appends one overlay exactly when
the layer's type is a key of the registry in use and otherwise changes
nothing, and stored parameter tensors are never modified anywhere. -/
theorem lora_c7_name_attach (namedCfg : List (String × LoraConfig)) (frags : List String)
    (cfg : LoraConfig) (net : Network) :
    (add_lora_by_layer_names namedCfg net = net.map (fun e => (e.1,
      (coveringCfgs namedCfg (net.map Prod.fst) e.1).foldl
        (fun d c => apply_lora true false c d) e.2))) ∧
    (add_lora_by_name frags cfg net = net.map (fun e => (e.1,
      (fun d => apply_lora true false cfg d)^[coveringCount frags (net.map Prod.fst) e.1]
        e.2))) ∧
    (∀ (cfg2 : LoraConfig) (d : NodeData) (n : ℕ),
      ((fun d2 => apply_lora true false cfg2 d2)^[n] d).weight = d.weight ∧
      ((fun d2 => apply_lora true false cfg2 d2)^[n] d).typeName = d.typeName ∧
      (lookupBy cfg2 d.typeName = none → apply_lora true false cfg2 d = d) ∧
      (∀ f, lookupBy cfg2 d.typeName = some f →
        (apply_lora true false cfg2 d).parametrizations = d.parametrizations ++ [f d] ∧
        (apply_lora true false cfg2 d).weight = d.weight)) := by
  refine ⟨?_, ?_, ?_⟩
  · rw [add_lora_by_layer_names]
    exact addByLayerNamesFold namedCfg (net.map Prod.fst) net
  · rw [add_lora_by_name]
    exact addByNameFold frags cfg (net.map Prod.fst) net
  · intro cfg2 d n
    obtain ⟨h1, h2⟩ := apply_lora_iterate_frame cfg2 d n
    exact ⟨h1, h2, apply_lora_register_skip cfg2 d,
      fun f hf => apply_lora_register_append cfg2 d f hf⟩

/-- Counterexample to C7 as stated: in `c7Net`, the map `c7NamedCfg` keys
only the container `enc`, yet after `add_lora_by_layer_names` the submodule
`enc.fc` — whose qualified name is not a key — carries an overlay (attachment
recurses through the keyed module's subtree); and `add_lora_by_name` with
fragment `enc` attaches nothing to the layer named `enc` although its name
contains the fragment (its type has no registry entry), so the affected set
is not the full union of fragment-matching layers. -/
theorem lora_c7_name_attach_counterexample :
    ((findNode (add_lora_by_layer_names c7NamedCfg c7Net) ["enc", "fc"]).map
        (fun d => d.parametrizations.length) = some 1 ∧
      (lookupBy c7NamedCfg (nameOf ["enc", "fc"])).isNone = true) ∧
    ((findNode (add_lora_by_name ["enc"] (default_lora_config oracleConst) c7Net) ["enc"]).map
        (fun d => d.parametrizations.length) = some 0 ∧
      matchesAny ["enc"] (nameOf ["enc"]) = true) := by decide

/-- Witness for C7: the characterization instantiated on `c7Net`, and the
per-node conjunct applied at a layer with no registry entry (empty registry)
and at one with an entry (a constant factory), discharging both inner
hypotheses. -/
theorem lora_c7_name_attach_witness :
    ((lookupBy ([] : LoraConfig) c9Node.typeName = none ∧
      apply_lora true false [] c9Node = c9Node) ∧
     (lookupBy [("ReLU", fun _ : NodeData => c5P)] c9Node.typeName =
        some (fun _ : NodeData => c5P) ∧
      (apply_lora true false [("ReLU", fun _ : NodeData => c5P)] c9Node).parametrizations =
        c9Node.parametrizations ++ [c5P] ∧
      (apply_lora true false [("ReLU", fun _ : NodeData => c5P)] c9Node).weight =
        c9Node.weight)) ∧
    (add_lora_by_layer_names c7NamedCfg c7Net = c7Net.map (fun e => (e.1,
      (coveringCfgs c7NamedCfg (c7Net.map Prod.fst) e.1).foldl
        (fun d c => apply_lora true false c d) e.2))) ∧
    (add_lora_by_name ["enc"] (default_lora_config oracleConst) c7Net =
      c7Net.map (fun e => (e.1,
        (fun d => apply_lora true false (default_lora_config oracleConst) d)^[
          coveringCount ["enc"] (c7Net.map Prod.fst) e.1] e.2))) := by
  have H := lora_c7_name_attach c7NamedCfg ["enc"] (default_lora_config oracleConst) c7Net
  refine ⟨⟨⟨rfl, ?_⟩, rfl, ?_, ?_⟩, H.1, H.2.1⟩
  · exact (H.2.2 [] c9Node 0).2.2.1 rfl
  · exact ((H.2.2 [("ReLU", fun _ : NodeData => c5P)] c9Node 0).2.2.2
      (fun _ : NodeData => c5P) rfl).1
  · exact ((H.2.2 [("ReLU", fun _ : NodeData => c5P)] c9Node 0).2.2.2
      (fun _ : NodeData => c5P) rfl).2
